import Mathlib

/-!
# QENEX Coin ledger core — shallow embedding

A shallow embedding of the ledger core of `kernel/cryptocurrency/qenex_coin.c`
(plus the training-completion bonus of
`kernel/distributed_training/continuous_trainer.c`), with proofs of the
specification's claims about it.

Modelling conventions:
* C `double` values are modelled as real numbers (`ℝ`); the reward formula uses
  `Real.logb 10` for `log10` from `math.h`.
* The gate `verify_ai_improvement` only compares numeric fields against rational
  constants, so the fields of `ai_verification_t` are modelled as `ℚ` (and cast
  to `ℝ` where they flow into real arithmetic); this keeps the gate decidable.
* `SHA256` (an external library routine) is abstracted as a function parameter
  `H : HashInput → String` over exactly the fields that
  `calculate_block_hash` serialises.
* Machine integers (`uint32_t` counters, heights, nonces) are modelled as `ℕ`;
  none of the claims involve wrap-around behaviour.
* The global mutable blockchain state is modelled as an explicit `QxcState`
  record threaded through the operations, with a `Reachable` predicate for the
  states produced by `qxc_init` followed by successful `mine_block` calls.
-/

namespace Qxc

/-! ## Constants from `qenex_coin.h` -/

def INITIAL_REWARD : ℝ := 100
def HALVING_INTERVAL : ℕ := 210000
def MAX_SUPPLY : ℝ := 21000000
noncomputable def TRANSACTION_FEE : ℝ := 1 / 1000

/-- `mining_type_t` values from `qenex_coin.h`; modelled as the raw enum codes
so that the unassigned (calloc-zeroed) value `0` is representable, exactly as
in the C program. -/
def MINING_TYPE_MODEL_ACCURACY : ℕ := 1
def MINING_TYPE_TRAINING_SPEED : ℕ := 2
def MINING_TYPE_RESOURCE_OPTIMIZE : ℕ := 3
def MINING_TYPE_ALGORITHM_IMPROVE : ℕ := 4
def MINING_TYPE_KERNEL_ENHANCE : ℕ := 5
def MINING_TYPE_QUANTUM_INTEGRATE : ℕ := 6
def MINING_TYPE_SECURITY_PATCH : ℕ := 7
def MINING_TYPE_PERFORMANCE_BOOST : ℕ := 8

/-! ## Improvement verification gate (`verify_ai_improvement`) -/

/-- The fields of `ai_verification_t` that the ledger core reads.  The numeric
metrics are `double`s in C, compared only against rational constants in the
gate, so `ℚ` is a faithful model. -/
structure AIVerification where
  model_id : String
  improvement_percentage : ℚ
  validation_loss : ℚ
  f1_score : ℚ
  metric_precision : ℚ
  metric_recall : ℚ
  confirmations : ℕ
  consensus_score : ℚ
  deriving DecidableEq

/-- `verify_ai_improvement` from `qenex_coin.c` (lines 157–179): four
early-return checks, admitting the claim only when none fires. -/
def verify_ai_improvement (v : AIVerification) : Bool :=
  if v.improvement_percentage < 1 then false
  else if v.confirmations < 3 then false
  else if v.consensus_score < 3/4 then false
  else if v.f1_score < 1/2 then false
  else true

/-! ## Reward policy (`calculate_mining_reward`) -/

/-- The `switch (type)` type-multiplier table of `calculate_mining_reward`
(lines 191–218).  The C switch has no `default` case, so every value outside
the eight enum codes — in particular the calloc-zeroed `0` that `mine_block`
actually passes — keeps the initial multiplier `1.0`. -/
noncomputable def type_multiplier (t : ℕ) : ℝ :=
  if t = MINING_TYPE_QUANTUM_INTEGRATE then 3
  else if t = MINING_TYPE_ALGORITHM_IMPROVE then 5/2
  else if t = MINING_TYPE_MODEL_ACCURACY then 2
  else if t = MINING_TYPE_KERNEL_ENHANCE then 9/5
  else if t = MINING_TYPE_TRAINING_SPEED then 3/2
  else if t = MINING_TYPE_SECURITY_PATCH then 3/2
  else if t = MINING_TYPE_PERFORMANCE_BOOST then 13/10
  else if t = MINING_TYPE_RESOURCE_OPTIMIZE then 6/5
  else 1

/-- `calculate_mining_reward` from `qenex_coin.c` (lines 182–232).  The C
function reads the globals `blockchain_height` and `total_supply`; here they
are explicit arguments.  The `for` loop halving `base_reward` once per elapsed
halving interval is the division by `2 ^ (height / HALVING_INTERVAL)`. -/
noncomputable def calculate_mining_reward
    (t : ℕ) (improvement : ℝ) (blockchain_height : ℕ) (total_supply : ℝ) : ℝ :=
  let base_reward := INITIAL_REWARD / 2 ^ (blockchain_height / HALVING_INTERVAL)
  let improvement_multiplier := 1 + Real.logb 10 (1 + improvement / 10)
  let final_reward := base_reward * type_multiplier t * improvement_multiplier
  if total_supply + final_reward > MAX_SUPPLY then MAX_SUPPLY - total_supply
  else final_reward

/-! ## Blocks, transactions and the chain -/

/-- `transaction_t` from `qenex_coin.h` (the fields the ledger reads). -/
structure Transaction where
  tx_id : String
  sender : String
  receiver : String
  amount : ℝ
  fee : ℝ
  timestamp : ℕ

/-- The `ai_mining_data` sub-struct embedded in every block. -/
structure AIMiningData where
  type : ℕ
  improvement_metric : ℝ
  developer_id : String
  model_hash : String
  reward_amount : ℝ

/-- `block_t` from `qenex_coin.h`.  The `next`/`prev` pointers become the list
structure of the chain; all other fields are kept. -/
structure Block where
  index : ℕ
  timestamp : ℕ
  prev_hash : String
  hash : String
  nonce : ℕ
  difficulty : ℕ
  ai_mining_data : AIMiningData
  transactions : List Transaction

/-- The exact tuple of fields that `calculate_block_hash` (lines 316–334)
serialises into the SHA256 input:
`index, timestamp, prev_hash, nonce, improvement_metric, developer_id,
reward_amount`.  Note the stored `hash`, `difficulty`, `type`, `model_hash`
and the transactions are *not* part of the digest input. -/
structure HashInput where
  index : ℕ
  timestamp : ℕ
  prev_hash : String
  nonce : ℕ
  improvement_metric : ℝ
  developer_id : String
  reward_amount : ℝ

/-- The serialised fields of a block, in the order `calculate_block_hash`
prints them. -/
def Block.hashInput (b : Block) : HashInput :=
  { index := b.index
    timestamp := b.timestamp
    prev_hash := b.prev_hash
    nonce := b.nonce
    improvement_metric := b.ai_mining_data.improvement_metric
    developer_id := b.ai_mining_data.developer_id
    reward_amount := b.ai_mining_data.reward_amount }

/-- `calculate_block_hash`: overwrite the block's stored `hash` with the
digest of its serialised fields.  The SHA256 digest (an external library
routine producing a 64-hex-char string) is abstracted as the parameter `H`. -/
def calculate_block_hash (H : HashInput → String) (b : Block) : Block :=
  { b with hash := H b.hashInput }

/-- The global blockchain state of `qenex_coin.c`: the linked list of blocks
(genesis first, `blockchain_tail` last), `blockchain_height` and
`total_supply`. -/
structure QxcState where
  chain : List Block
  blockchain_height : ℕ
  total_supply : ℝ

/-- Fallback block for `List.getLastD`; never used on the non-empty chains of
reachable states. -/
def dummyBlock : Block :=
  { index := 0, timestamp := 0, prev_hash := "", hash := "", nonce := 0
    difficulty := 0
    ai_mining_data :=
      { type := 0, improvement_metric := 0, developer_id := ""
        model_hash := "", reward_amount := 0 }
    transactions := [] }

/-- The current `blockchain_tail`. -/
def QxcState.tip (s : QxcState) : Block := s.chain.getLastD dummyBlock

/-! ## `qxc_init` and `mine_block` -/

/-- `qxc_init` (lines 31–57): create the genesis block (index 0, previous
hash the sentinel `"0"`, difficulty 4, kernel-enhance type, improvement 100,
claimant `QENEX_FOUNDATION`, reward `INITIAL_REWARD`), hash it, and start the
chain with height 1 and supply `INITIAL_REWARD`.  The genesis timestamp
(`time(NULL)`) is a parameter. -/
noncomputable def qxc_init (H : HashInput → String) (ts : ℕ) : QxcState :=
  let genesis : Block :=
    { index := 0, timestamp := ts, prev_hash := "0", hash := "", nonce := 0
      difficulty := 4
      ai_mining_data :=
        { type := MINING_TYPE_KERNEL_ENHANCE, improvement_metric := 100
          developer_id := "QENEX_FOUNDATION", model_hash := ""
          reward_amount := INITIAL_REWARD }
      transactions := [] }
  { chain := [calculate_block_hash H genesis]
    blockchain_height := 1
    total_supply := INITIAL_REWARD }

/-- The successful path of `mine_block` (lines 85–154), for a verified proof:
assemble the candidate block referencing the tip, compute its reward from the
current height and supply, run the nonce search, and append.  `ts` is
`time(NULL)`, `difficulty` the `calculate_difficulty()` result, and `nonce`
the value found by the proof-of-work loop — the loop's final
`calculate_block_hash` call leaves `hash = H` of the block's final fields.
The `ai_mining_data.type` field is never assigned by the C code
(`calloc` zeroes it), so it is 0 here and the reward uses multiplier 1. -/
noncomputable def mine_block (H : HashInput → String) (s : QxcState)
    (miner_address : String) (proof : AIVerification)
    (ts difficulty nonce : ℕ) : QxcState :=
  let reward := calculate_mining_reward 0 (proof.improvement_percentage : ℝ)
      s.blockchain_height s.total_supply
  let new_block : Block :=
    { index := s.blockchain_height, timestamp := ts
      prev_hash := s.tip.hash, hash := "", nonce := nonce
      difficulty := difficulty
      ai_mining_data :=
        { type := 0
          improvement_metric := (proof.improvement_percentage : ℝ)
          developer_id := miner_address, model_hash := proof.model_id
          reward_amount := reward }
      transactions := [] }
  { chain := s.chain ++ [calculate_block_hash H new_block]
    blockchain_height := s.blockchain_height + 1
    total_supply := s.total_supply + reward }

/-- States reachable from `qxc_init` by successful `mine_block` calls (the
mining path runs only when `verify_ai_improvement` admits the proof). -/
inductive Reachable (H : HashInput → String) : QxcState → Prop
  | init (ts : ℕ) : Reachable H (qxc_init H ts)
  | mine (s : QxcState) (miner_address : String) (proof : AIVerification)
      (ts difficulty nonce : ℕ) (hr : Reachable H s)
      (hv : verify_ai_improvement proof = true) :
      Reachable H (mine_block H s miner_address proof ts difficulty nonce)

/-! ## Chain verification (`verify_blockchain_integrity`) -/

/-- The `while (current && current->next)` walk of
`verify_blockchain_integrity` (lines 469–498): for every block that has a
successor, first compare its stored hash with the successor's `prev_hash`,
then recompute its own hash and compare with the stored one; stop at the
first failure, reporting the failing block's stored `index` field.  `none`
is the "valid" return (C `1`); `some i` the invalid return (C `0`, with
block index `i` printed). -/
def verify_blockchain_integrity (H : HashInput → String) :
    List Block → Option ℕ
  | [] => none
  | [_] => none
  | b :: b' :: rest =>
      if b.hash ≠ b'.prev_hash then some b.index
      else if (calculate_block_hash H b).hash ≠ b.hash then some b.index
      else verify_blockchain_integrity H (b' :: rest)

/-! ## Balance derivation (`get_wallet_balance`) -/

/-- The inner `for` loop of `get_wallet_balance` (lines 453–460): fold the
running balance over a block's transactions, crediting receipts and debiting
`amount + fee` for sends. -/
def scan_transactions (address : String) : List Transaction → ℝ → ℝ
  | [], balance => balance
  | t :: rest, balance =>
      let balance := if t.receiver = address then balance + t.amount else balance
      let balance :=
        if t.sender = address then balance - (t.amount + t.fee) else balance
      scan_transactions address rest balance

/-- The outer `while (current)` loop of `get_wallet_balance` (lines 446–463):
credit each block's mining reward when the claimant matches, then scan its
transactions. -/
def scan_blocks (address : String) : List Block → ℝ → ℝ
  | [], balance => balance
  | b :: rest, balance =>
      let balance :=
        if b.ai_mining_data.developer_id = address then
          balance + b.ai_mining_data.reward_amount
        else balance
      scan_blocks address rest (scan_transactions address b.transactions balance)

/-- `get_wallet_balance` (lines 442–466), over an explicit chain. -/
def get_wallet_balance (address : String) (chain : List Block) : ℝ :=
  scan_blocks address chain 0

/-! ## Transaction processing (`process_transaction`) -/

/-- Modelled from the spec: `update_balance` is only called from
`process_transaction`, never defined under `src/`.  Per §4.6 a transfer
"debits sender, credits receiver", so `update_balance` adjusts a per-address
balance store by a signed delta. -/
def update_balance (balances : String → ℝ) (address : String) (delta : ℝ) :
    String → ℝ :=
  fun a => if a = address then balances a + delta else balances a

/-- `process_transaction` (lines 417–439).  `verify_transaction_signature` is
only called, never defined under `src/`; per §1 of the spec signature checks
are "pluggable predicates", modelled as the parameter `sig`.  The sender's
balance check uses the chain-derived `get_wallet_balance`, exactly as the C
code does; on success the two `update_balance` calls debit `amount + fee`
from the sender and credit `amount` to the receiver.  Returns the C `int`
result together with the resulting balance store.  (The
`record_ai_contribution` call touches only contributor statistics, not
balances, and is omitted.) -/
noncomputable def process_transaction (sig : Transaction → Bool)
    (chain : List Block) (balances : String → ℝ) (tx : Transaction) :
    Bool × (String → ℝ) :=
  if sig tx = false then (false, balances)
  else if get_wallet_balance tx.sender chain < tx.amount + tx.fee then
    (false, balances)
  else
    (true,
      update_balance
        (update_balance balances tx.sender (-(tx.amount + tx.fee)))
        tx.receiver tx.amount)

/-! ## Wallets and the training-completion bonus -/

/-- `wallet_t` (the fields the modelled operations touch).  `create_wallet`
derives the address from the developer id through SHA256; the derivation is
irrelevant to the claims, so the address is a parameter.  `calloc` zeroes the
cached `balance` and the statistics. -/
structure Wallet where
  address : String
  balance : ℝ
  total_contributions : ℕ
  total_mined : ℝ

/-- `create_wallet` (lines 60–82): a fresh wallet with zeroed cached balance
and statistics. -/
def create_wallet (address : String) : Wallet :=
  { address := address, balance := 0, total_contributions := 0, total_mined := 0 }

/-- `finalize_training` from `continuous_trainer.c` (lines 377–395): award the
flat completion bonus `0.1` directly to the wallet's cached mutable `balance`
field, without recording anything on the chain. -/
noncomputable def finalize_training (w : Wallet) : Wallet :=
  { w with balance := w.balance + 1/10 }

/-! ## Per-pair checks of the chain-verification walk -/

/-- Both checks `verify_blockchain_integrity` runs on a block `b` that has a
successor `b'`: stored-hash/`prev_hash` linkage, and stability of the stored
hash under recomputation. -/
def BlockChecksOk (H : HashInput → String) (b b' : Block) : Prop :=
  b.hash = b'.prev_hash ∧ (calculate_block_hash H b).hash = b.hash

instance (H : HashInput → String) (b b' : Block) :
    Decidable (BlockChecksOk H b b') := by
  unfold BlockChecksOk; infer_instance

/-! ## Concrete fixtures used to settle the claims on explicit inputs -/

/-- A concrete hash oracle: every digest is `"aa"`. -/
def constHash : HashInput → String := fun _ => "aa"

/-- A block whose stored hash agrees with `constHash`. -/
def fixGenesis : Block :=
  { index := 0, timestamp := 0, prev_hash := "0", hash := "aa", nonce := 0
    difficulty := 4
    ai_mining_data :=
      { type := 5, improvement_metric := 100, developer_id := "QENEX_FOUNDATION"
        model_hash := "", reward_amount := 100 }
    transactions := [] }

/-- A last block that is correctly linked to `fixGenesis` but whose stored
hash `"zz"` does not survive recomputation under `constHash`. -/
def fixBadTail : Block :=
  { index := 1, timestamp := 0, prev_hash := "aa", hash := "zz", nonce := 0
    difficulty := 4
    ai_mining_data :=
      { type := 0, improvement_metric := 2, developer_id := "dev"
        model_hash := "", reward_amount := 50 }
    transactions := [] }

/-- A first block that is *not* linked to `fixBadTail`'s recorded
predecessor hash. -/
def fixUnlinked : Block :=
  { fixGenesis with hash := "xx" }

/-- The unclamped reward formula of `calculate_mining_reward`:
`base · typeMultiplier · (1 + log10(1 + improvement/10))`. -/
noncomputable def mining_reward_formula (t : ℕ) (improvement : ℝ)
    (blockchain_height : ℕ) : ℝ :=
  INITIAL_REWARD / 2 ^ (blockchain_height / HALVING_INTERVAL) *
    type_multiplier t * (1 + Real.logb 10 (1 + improvement / 10))

/-! # Theorems -/

/-- C1: the improvement-verification gate admits a claim iff all four
predicates hold (improvement ≥ 1.0, confirmations ≥ 3, consensus score
≥ 0.75, F1 ≥ 0.5); any claim with exactly 2 confirmations is rejected
whatever its other fields; and a claim with improvement 10, confirmations 3,
score 0.8, F1 0.6 is admitted. -/
theorem verify_ai_improvement_spec :
    (∀ v : AIVerification,
      verify_ai_improvement v = true ↔
        1 ≤ v.improvement_percentage ∧ 3 ≤ v.confirmations ∧
        3/4 ≤ v.consensus_score ∧ 1/2 ≤ v.f1_score) ∧
    (∀ v : AIVerification, v.confirmations = 2 →
      verify_ai_improvement v = false) ∧
    (∀ v : AIVerification,
      v.improvement_percentage = 10 → v.confirmations = 3 →
      v.consensus_score = 4/5 → v.f1_score = 3/5 →
      verify_ai_improvement v = true) := by
  have key : ∀ v : AIVerification,
      verify_ai_improvement v = true ↔
        1 ≤ v.improvement_percentage ∧ 3 ≤ v.confirmations ∧
        3/4 ≤ v.consensus_score ∧ 1/2 ≤ v.f1_score := by
    intro v
    constructor
    · intro h
      unfold verify_ai_improvement at h
      split_ifs at h with h1 h2 h3 h4
      exact ⟨not_lt.mp h1, not_lt.mp h2, not_lt.mp h3, not_lt.mp h4⟩
    · rintro ⟨a, b, c, d⟩
      unfold verify_ai_improvement
      rw [if_neg (not_lt.mpr a), if_neg (not_lt.mpr b), if_neg (not_lt.mpr c),
        if_neg (not_lt.mpr d)]
  refine ⟨key, ?_, ?_⟩
  · intro v hc
    rcases h : verify_ai_improvement v with _ | _
    · rfl
    · exact absurd ((key v).mp h).2.1 (by omega)
  · intro v h1 h2 h3 h4
    exact (key v).mpr (by rw [h1, h2, h3, h4]; norm_num)

/-- Witness for C1 at the spec's concrete rejected claim
(improvement 50, confirmations 2, consensus 0.95, F1 0.9). -/
theorem verify_ai_improvement_spec_witness :
    verify_ai_improvement
      { model_id := "m", improvement_percentage := 50, validation_loss := 0
        f1_score := 9/10, metric_precision := 0, metric_recall := 0
        confirmations := 2, consensus_score := 19/20 } = false :=
  verify_ai_improvement_spec.2.1 _ rfl

/-! ## Reward-policy lemmas -/

lemma calculate_mining_reward_def (t : ℕ) (improvement : ℝ)
    (height : ℕ) (supply : ℝ) :
    calculate_mining_reward t improvement height supply =
      if supply + mining_reward_formula t improvement height > MAX_SUPPLY then
        MAX_SUPPLY - supply
      else mining_reward_formula t improvement height := rfl

lemma one_le_type_multiplier (t : ℕ) : 1 ≤ type_multiplier t := by
  unfold type_multiplier
  split_ifs <;> norm_num

lemma mining_reward_formula_nonneg (t : ℕ) (improvement : ℝ)
    (height : ℕ) (himp : 0 ≤ improvement) :
    0 ≤ mining_reward_formula t improvement height := by
  unfold mining_reward_formula INITIAL_REWARD
  have hbase : (0:ℝ) < 100 / 2 ^ (height / HALVING_INTERVAL) := by positivity
  have hmul := one_le_type_multiplier t
  have hlog : 0 ≤ Real.logb 10 (1 + improvement / 10) :=
    Real.logb_nonneg (by norm_num) (by linarith)
  have : (0:ℝ) ≤ 1 + Real.logb 10 (1 + improvement / 10) := by linarith
  positivity

lemma mining_reward_formula_pos (t : ℕ) (improvement : ℝ)
    (height : ℕ) (himp : 0 ≤ improvement) :
    0 < mining_reward_formula t improvement height := by
  unfold mining_reward_formula INITIAL_REWARD
  have hbase : (0:ℝ) < 100 / 2 ^ (height / HALVING_INTERVAL) := by positivity
  have hmul := one_le_type_multiplier t
  have hlog : 0 ≤ Real.logb 10 (1 + improvement / 10) :=
    Real.logb_nonneg (by norm_num) (by linarith)
  have h1 : (0:ℝ) < 1 + Real.logb 10 (1 + improvement / 10) := by linarith
  positivity

/-- The clamped reward is the minimum of the unclamped formula and the
remaining headroom below the supply cap. -/
lemma calculate_mining_reward_eq_min (t : ℕ) (improvement : ℝ)
    (height : ℕ) (supply : ℝ) :
    calculate_mining_reward t improvement height supply =
      min (mining_reward_formula t improvement height) (MAX_SUPPLY - supply) := by
  rw [calculate_mining_reward_def]
  split_ifs with h
  · exact (min_eq_right (by linarith)).symm
  · exact (min_eq_left (by linarith)).symm

/-- The clamp makes `supply + reward ≤ MAX_SUPPLY` hold unconditionally. -/
lemma supply_add_reward_le (t : ℕ) (improvement : ℝ)
    (height : ℕ) (supply : ℝ) :
    supply + calculate_mining_reward t improvement height supply ≤
      MAX_SUPPLY := by
  rw [calculate_mining_reward_def]
  split_ifs with h
  · linarith
  · linarith

/-- C2: the computed mining reward equals
`(initialReward / 2^⌊height/halvingInterval⌋) · typeMultiplier ·
(1 + log10(1 + improvement/10))` clamped so that
`currentSupply + reward ≤ maxSupply`, and for gate-admissible improvement
values and any supply not already above the cap the clamped reward is never
negative. -/
theorem calculate_mining_reward_spec (t : ℕ) (improvement : ℝ)
    (height : ℕ) (supply : ℝ) (himp : 1 ≤ improvement)
    (hsup : supply ≤ MAX_SUPPLY) :
    calculate_mining_reward t improvement height supply =
      min (INITIAL_REWARD / 2 ^ (height / HALVING_INTERVAL) *
          type_multiplier t * (1 + Real.logb 10 (1 + improvement / 10)))
        (MAX_SUPPLY - supply) ∧
    supply + calculate_mining_reward t improvement height supply ≤
      MAX_SUPPLY ∧
    0 ≤ calculate_mining_reward t improvement height supply := by
  refine ⟨calculate_mining_reward_eq_min t improvement height supply,
    supply_add_reward_le t improvement height supply, ?_⟩
  rw [calculate_mining_reward_eq_min]
  exact le_min
    (mining_reward_formula_nonneg t improvement height (by linarith))
    (by linarith)

/-- Witness for C2 at type 5 (kernel enhance), improvement 10, height 0,
supply 100. -/
theorem calculate_mining_reward_spec_witness :
    (1:ℝ) ≤ 10 ∧ (100:ℝ) ≤ MAX_SUPPLY ∧
      0 ≤ calculate_mining_reward 5 10 0 100 :=
  ⟨by norm_num, by unfold MAX_SUPPLY; norm_num,
    (calculate_mining_reward_spec 5 10 0 100 (by norm_num)
      (by unfold MAX_SUPPLY; norm_num)).2.2⟩

/-! ## Halving behaviour of the reward (C8) -/

lemma reward_at_cap (t : ℕ) (improvement : ℝ) (height : ℕ)
    (himp : 0 ≤ improvement) :
    calculate_mining_reward t improvement height MAX_SUPPLY = 0 := by
  rw [calculate_mining_reward_eq_min, sub_self]
  exact min_eq_right (mining_reward_formula_nonneg t improvement height himp)

lemma mining_reward_formula_antitone (t : ℕ) (improvement : ℝ)
    (h₁ h₂ : ℕ) (himp : 0 ≤ improvement) (hh : h₁ ≤ h₂) :
    mining_reward_formula t improvement h₂ ≤
      mining_reward_formula t improvement h₁ := by
  unfold mining_reward_formula INITIAL_REWARD
  have hmul := one_le_type_multiplier t
  have hlog : 0 ≤ Real.logb 10 (1 + improvement / 10) :=
    Real.logb_nonneg (by norm_num) (by linarith)
  have hpow : (2:ℝ) ^ (h₁ / HALVING_INTERVAL) ≤
      2 ^ (h₂ / HALVING_INTERVAL) :=
    pow_le_pow_right₀ (by norm_num) (Nat.div_le_div_right hh)
  have hbase : (100:ℝ) / 2 ^ (h₂ / HALVING_INTERVAL) ≤
      100 / 2 ^ (h₁ / HALVING_INTERVAL) := by
    apply div_le_div_of_nonneg_left (by norm_num) (by positivity) hpow
  have h1 := mul_le_mul_of_nonneg_right hbase (by linarith : (0:ℝ) ≤ type_multiplier t)
  exact mul_le_mul_of_nonneg_right h1 (by linarith)

/-- C8 counterexample: with the supply already at the cap, crossing the first
halving boundary (height 0 to height `HALVING_INTERVAL`) does *not* strictly
decrease the reward — both rewards are clamped to 0 — refuting "strictly
decreases by exactly a factor of 2 at each halving boundary" for an arbitrary
fixed supply. -/
theorem halving_strict_decrease_counterexample :
    HALVING_INTERVAL / HALVING_INTERVAL = 0 / HALVING_INTERVAL + 1 ∧
    ¬ calculate_mining_reward 5 10 HALVING_INTERVAL MAX_SUPPLY <
        calculate_mining_reward 5 10 0 MAX_SUPPLY := by
  constructor
  · norm_num [HALVING_INTERVAL]
  · rw [reward_at_cap 5 10 HALVING_INTERVAL (by norm_num),
      reward_at_cap 5 10 0 (by norm_num)]
    exact lt_irrefl 0

/-- C8 (amended): for identical (type, improvement) inputs with
gate-admissible improvement and a fixed supply, the reward is monotonically
non-increasing in chain height; and across a halving boundary it halves
exactly — strictly decreasing — *provided the supply cap does not clamp the
reward at the lower height*. -/
theorem calculate_mining_reward_halving_spec (t : ℕ)
    (improvement supply : ℝ) (h₁ h₂ : ℕ) (himp : 1 ≤ improvement) :
    (h₁ ≤ h₂ →
      calculate_mining_reward t improvement h₂ supply ≤
        calculate_mining_reward t improvement h₁ supply) ∧
    (h₂ / HALVING_INTERVAL = h₁ / HALVING_INTERVAL + 1 →
      supply + mining_reward_formula t improvement h₁ ≤ MAX_SUPPLY →
      calculate_mining_reward t improvement h₂ supply =
        calculate_mining_reward t improvement h₁ supply / 2 ∧
      calculate_mining_reward t improvement h₂ supply <
        calculate_mining_reward t improvement h₁ supply) := by
  constructor
  · intro hh
    rw [calculate_mining_reward_eq_min, calculate_mining_reward_eq_min]
    exact min_le_min
      (mining_reward_formula_antitone t improvement h₁ h₂ (by linarith) hh)
      le_rfl
  · intro hdiv hcap
    have hf2 : mining_reward_formula t improvement h₂ =
        mining_reward_formula t improvement h₁ / 2 := by
      unfold mining_reward_formula
      rw [hdiv, pow_succ]
      ring
    have hF1pos := mining_reward_formula_pos t improvement h₁ (by linarith)
    have r1 : calculate_mining_reward t improvement h₁ supply =
        mining_reward_formula t improvement h₁ := by
      rw [calculate_mining_reward_eq_min]
      exact min_eq_left (by linarith)
    have r2 : calculate_mining_reward t improvement h₂ supply =
        mining_reward_formula t improvement h₁ / 2 := by
      rw [calculate_mining_reward_eq_min, hf2]
      exact min_eq_left (by linarith)
    exact ⟨by rw [r1, r2], by rw [r1, r2]; linarith⟩

/-- Witness for the amended C8: at type 5, improvement 10, supply 100, the
reward at height `HALVING_INTERVAL` is exactly half the reward at height 0,
and strictly smaller. -/
theorem calculate_mining_reward_halving_spec_witness :
    calculate_mining_reward 5 10 HALVING_INTERVAL 100 =
      calculate_mining_reward 5 10 0 100 / 2 ∧
    calculate_mining_reward 5 10 HALVING_INTERVAL 100 <
      calculate_mining_reward 5 10 0 100 := by
  have hlog2 : Real.logb 10 (1 + (10:ℝ) / 10) ≤ 1 := by
    have h := Real.logb_le_logb_of_le (by norm_num : (1:ℝ) < 10)
      (by norm_num : (0:ℝ) < 1 + 10/10) (by norm_num : (1:ℝ) + 10/10 ≤ 10)
    rwa [Real.logb_self_eq_one (by norm_num)] at h
  have hlog0 : 0 ≤ Real.logb 10 (1 + (10:ℝ) / 10) :=
    Real.logb_nonneg (by norm_num) (by norm_num)
  refine (calculate_mining_reward_halving_spec 5 10 100 0 HALVING_INTERVAL
      (by norm_num)).2 (by norm_num [HALVING_INTERVAL]) ?_
  unfold mining_reward_formula INITIAL_REWARD MAX_SUPPLY HALVING_INTERVAL
  have ht : type_multiplier 5 = 9/5 := by
    norm_num [type_multiplier, MINING_TYPE_QUANTUM_INTEGRATE,
      MINING_TYPE_ALGORITHM_IMPROVE, MINING_TYPE_MODEL_ACCURACY,
      MINING_TYPE_KERNEL_ENHANCE]
  rw [ht]
  norm_num
  linarith

/-! ## Reachable-state invariants (C3) -/

/-- C3: the reward embedded in every block appended by `mine_block` satisfies
`previousSupply + reward ≤ MAX_SUPPLY`, and consequently the circulating
supply never exceeds the maximum supply in any reachable chain state. -/
theorem supply_never_exceeds_max :
    (∀ (H : HashInput → String) (s : QxcState) (miner : String)
        (proof : AIVerification) (ts difficulty nonce : ℕ),
      s.total_supply +
        (mine_block H s miner proof ts difficulty nonce).tip.ai_mining_data.reward_amount ≤
        MAX_SUPPLY) ∧
    (∀ (H : HashInput → String) (s : QxcState), Reachable H s →
      s.total_supply ≤ MAX_SUPPLY) := by
  constructor
  · intro H s miner proof ts difficulty nonce
    have htip : (mine_block H s miner proof ts difficulty nonce).tip.ai_mining_data.reward_amount =
        calculate_mining_reward 0 (proof.improvement_percentage : ℝ)
          s.blockchain_height s.total_supply := by
      simp [mine_block, QxcState.tip, List.getLastD_concat, calculate_block_hash]
    rw [htip]
    exact supply_add_reward_le _ _ _ _
  · intro H s hs
    induction hs with
    | init ts =>
        unfold qxc_init INITIAL_REWARD MAX_SUPPLY
        norm_num
    | mine s miner proof ts difficulty nonce hr hv ih =>
        have h := supply_add_reward_le 0 (proof.improvement_percentage : ℝ)
          s.blockchain_height s.total_supply
        simpa [mine_block] using h

/-- Witness for C3 at the genesis state. -/
theorem supply_never_exceeds_max_witness :
    Reachable constHash (qxc_init constHash 0) ∧
    (qxc_init constHash 0).total_supply ≤ MAX_SUPPLY :=
  ⟨.init 0, supply_never_exceeds_max.2 constHash _ (.init 0)⟩

/-! ## Chain-verification lemmas (C4, C5) -/

lemma verify_cons_cons (H : HashInput → String) (b b' : Block)
    (rest : List Block) :
    verify_blockchain_integrity H (b :: b' :: rest) =
      if b.hash ≠ b'.prev_hash then some b.index
      else if (calculate_block_hash H b).hash ≠ b.hash then some b.index
      else verify_blockchain_integrity H (b' :: rest) := rfl

/-- The walk reports "valid" exactly when every block that has a successor
passes both the linkage check and the hash-recompute check. -/
lemma verify_eq_none_iff (H : HashInput → String) :
    ∀ chain : List Block,
      verify_blockchain_integrity H chain = none ↔
        List.Chain' (BlockChecksOk H) chain
  | [] => by simp [verify_blockchain_integrity]
  | [b] => by simp [verify_blockchain_integrity]
  | b :: b' :: rest => by
    rw [verify_cons_cons, List.chain'_cons, ← verify_eq_none_iff H (b' :: rest)]
    unfold BlockChecksOk
    by_cases h1 : b.hash = b'.prev_hash
    · by_cases h2 : (calculate_block_hash H b).hash = b.hash
      · rw [if_neg (not_not.mpr h1), if_neg (not_not.mpr h2)]
        tauto
      · rw [if_neg (not_not.mpr h1), if_pos h2]
        simp [h2]
    · rw [if_pos h1]
      simp [h1]

lemma getLast?_eq_some_getLastD {α : Type} (l : List α) (d : α) (h : l ≠ []) :
    l.getLast? = some (l.getLastD d) := by
  rw [List.getLastD_eq_getLast?]
  rcases Option.isSome_iff_exists.mp (List.getLast?_isSome.mpr h) with ⟨x, hx⟩
  simp [hx]

/-- If every block's stored hash is stable under recomputation and adjacent
blocks are correctly linked, then every per-pair check passes. -/
lemma chain'_checks_of (H : HashInput → String) :
    ∀ l : List Block,
      (∀ b ∈ l, b.hash = H b.hashInput) →
      List.Chain' (fun b b' => b.hash = b'.prev_hash) l →
      List.Chain' (BlockChecksOk H) l
  | [] , _, _ => List.chain'_nil
  | [_], _, _ => List.chain'_singleton _
  | b :: b' :: rest, hh, hl => by
    rw [List.chain'_cons] at hl ⊢
    refine ⟨⟨hl.1, (hh b (List.mem_cons_self b _)).symm⟩,
      chain'_checks_of H (b' :: rest)
        (fun x hx => hh x (List.mem_cons_of_mem _ hx)) hl.2⟩

/-- Invariant of reachable states: the chain is non-empty, every block's
stored hash is the digest of its own serialised fields, and adjacent blocks
are hash-linked. -/
lemma reachable_chain_invariant (H : HashInput → String) (s : QxcState)
    (hs : Reachable H s) :
    s.chain ≠ [] ∧
    (∀ b ∈ s.chain, b.hash = H b.hashInput) ∧
    List.Chain' (fun b b' => b.hash = b'.prev_hash) s.chain := by
  induction hs with
  | init ts =>
    refine ⟨by simp [qxc_init], ?_, by simp [qxc_init]⟩
    intro b hb
    simp [qxc_init] at hb
    subst hb
    rfl
  | mine s miner proof ts difficulty nonce hr hv ih =>
    obtain ⟨hne, hhash, hlink⟩ := ih
    refine ⟨by simp [mine_block], ?_, ?_⟩
    · intro b hb
      simp [mine_block] at hb
      rcases hb with hb | hb
      · exact hhash b hb
      · subst hb
        rfl
    · show List.Chain' _ (s.chain ++ [_])
      rw [List.chain'_append]
      refine ⟨hlink, List.chain'_singleton _, ?_⟩
      intro x hx y hy
      rw [getLast?_eq_some_getLastD s.chain dummyBlock hne, Option.mem_def,
        Option.some.injEq] at hx
      rw [List.head?_cons, Option.mem_def, Option.some.injEq] at hy
      subst hx
      subst hy
      rfl

/-- C4: every chain produced from genesis by successful mining operations is
reported valid by the chain-verification procedure. -/
theorem mined_chains_verify_valid (H : HashInput → String) (s : QxcState)
    (hs : Reachable H s) :
    verify_blockchain_integrity H s.chain = none := by
  obtain ⟨hne, hhash, hlink⟩ := reachable_chain_invariant H s hs
  rw [verify_eq_none_iff]
  exact chain'_checks_of H s.chain hhash hlink

/-- Witness for C4 at the genesis chain. -/
theorem mined_chains_verify_valid_witness :
    Reachable constHash (qxc_init constHash 0) ∧
    verify_blockchain_integrity constHash (qxc_init constHash 0).chain = none :=
  ⟨.init 0, mined_chains_verify_valid constHash _ (.init 0)⟩

/-- C5 counterexample: a two-block chain whose last block is correctly linked
but whose stored hash does not survive recomputation is still reported valid
— the walk never recomputes the final block's hash, refuting "every block in
the entire chain (including the last one) passes both checks". -/
theorem verify_skips_last_block_counterexample :
    verify_blockchain_integrity constHash [fixGenesis, fixBadTail] = none ∧
    (calculate_block_hash constHash fixBadTail).hash ≠ fixBadTail.hash := by
  constructor
  · rfl
  · intro h
    simp [calculate_block_hash, constHash, fixBadTail] at h

/-- When every pair before position `i` passes both checks and the pair at
position `i` fails one, the walk returns the stored index of the block at
position `i`. -/
lemma verify_first_failure (H : HashInput → String) :
    ∀ (chain : List Block) (i : ℕ) (hi : i + 1 < chain.length),
      (∀ k (hk : k + 1 < chain.length), k < i →
        BlockChecksOk H (chain.get ⟨k, Nat.lt_of_succ_lt hk⟩)
          (chain.get ⟨k + 1, hk⟩)) →
      ¬ BlockChecksOk H (chain.get ⟨i, Nat.lt_of_succ_lt hi⟩)
          (chain.get ⟨i + 1, hi⟩) →
      verify_blockchain_integrity H chain =
        some (chain.get ⟨i, Nat.lt_of_succ_lt hi⟩).index
  | [], i, hi, _, _ => by simp at hi
  | [_], i, hi, _, _ => by
      simp only [List.length_singleton] at hi
      omega
  | b :: b' :: rest, 0, hi, _, hfail => by
      rw [verify_cons_cons]
      unfold BlockChecksOk at hfail
      push_neg at hfail
      have hfail2 : b.hash = b'.prev_hash →
          (calculate_block_hash H b).hash ≠ b.hash := hfail
      by_cases h1 : b.hash = b'.prev_hash
      · rw [if_neg (not_not.mpr h1), if_pos (hfail2 h1)]
        rfl
      · rw [if_pos h1]
        rfl
  | b :: b' :: rest, j + 1, hi, hbefore, hfail => by
      have h0 : BlockChecksOk H b b' := by
        have h := hbefore 0
          (by simp only [List.length_cons]; omega) (Nat.succ_pos j)
        simpa using h
      rw [verify_cons_cons, if_neg (not_not.mpr h0.1),
        if_neg (not_not.mpr h0.2)]
      have hi' : j + 1 < (b' :: rest).length := by
        simp only [List.length_cons] at hi ⊢
        omega
      have hb' : ∀ k (hk : k + 1 < (b' :: rest).length), k < j →
          BlockChecksOk H ((b' :: rest).get ⟨k, Nat.lt_of_succ_lt hk⟩)
            ((b' :: rest).get ⟨k + 1, hk⟩) := by
        intro k hk hkj
        have h := hbefore (k + 1)
          (by simp only [List.length_cons] at hk ⊢; omega)
          (Nat.succ_lt_succ hkj)
        simpa using h
      have hf' : ¬ BlockChecksOk H
          ((b' :: rest).get ⟨j, Nat.lt_of_succ_lt hi'⟩)
          ((b' :: rest).get ⟨j + 1, hi'⟩) := by
        intro h
        exact hfail (by simpa using h)
      have h := verify_first_failure H (b' :: rest) j hi' hb' hf'
      simpa using h

/-- C5 (amended): the walk recomputes the hash of, and checks linkage from,
every block **that has a successor** — the last block's own hash is never
recomputed.  It reports valid iff all those per-pair checks pass, and
otherwise returns the stored index of the first block at which either check
fails. -/
theorem verify_blockchain_integrity_spec (H : HashInput → String)
    (chain : List Block) :
    (verify_blockchain_integrity H chain = none ↔
      List.Chain' (BlockChecksOk H) chain) ∧
    (∀ (i : ℕ) (hi : i + 1 < chain.length),
      (∀ k (hk : k + 1 < chain.length), k < i →
        BlockChecksOk H (chain.get ⟨k, Nat.lt_of_succ_lt hk⟩)
          (chain.get ⟨k + 1, hk⟩)) →
      ¬ BlockChecksOk H (chain.get ⟨i, Nat.lt_of_succ_lt hi⟩)
          (chain.get ⟨i + 1, hi⟩) →
      verify_blockchain_integrity H chain =
        some (chain.get ⟨i, Nat.lt_of_succ_lt hi⟩).index) :=
  ⟨verify_eq_none_iff H chain,
    fun i hi hb hf => verify_first_failure H chain i hi hb hf⟩

/-- Witness for the amended C5: a two-block chain failing the linkage check
at position 0 is reported invalid at index 0. -/
theorem verify_blockchain_integrity_spec_witness :
    verify_blockchain_integrity constHash [fixUnlinked, fixBadTail] =
      some 0 := by
  have h := (verify_blockchain_integrity_spec constHash
      [fixUnlinked, fixBadTail]).2 0 (by norm_num)
    (fun k hk hlt => absurd hlt (Nat.not_lt_zero k))
    (by
      intro hok
      have h1 := hok.1
      simp [fixUnlinked, fixGenesis, fixBadTail] at h1)
  simpa [fixUnlinked, fixGenesis] using h

/-! ## Balance derivation (C6) -/

lemma scan_transactions_eq (address : String) :
    ∀ (l : List Transaction) (acc : ℝ),
      scan_transactions address l acc =
        acc + (l.map (fun t =>
          (if t.receiver = address then t.amount else 0) -
          (if t.sender = address then t.amount + t.fee else 0))).sum
  | [], acc => by simp [scan_transactions]
  | t :: rest, acc => by
      simp only [scan_transactions]
      rw [scan_transactions_eq address rest]
      simp only [List.map_cons, List.sum_cons]
      split_ifs <;> ring

lemma scan_blocks_eq (address : String) :
    ∀ (l : List Block) (acc : ℝ),
      scan_blocks address l acc =
        acc + (l.map (fun b =>
          (if b.ai_mining_data.developer_id = address then
            b.ai_mining_data.reward_amount else 0) +
          (b.transactions.map (fun t =>
            (if t.receiver = address then t.amount else 0) -
            (if t.sender = address then t.amount + t.fee else 0))).sum)).sum
  | [], acc => by simp [scan_blocks]
  | b :: rest, acc => by
      simp only [scan_blocks]
      rw [scan_blocks_eq address rest, scan_transactions_eq]
      simp only [List.map_cons, List.sum_cons]
      split_ifs <;> ring

/-- C6: the derived balance equals the full linear sum over the chain of the
matching reward credits, transaction credits, and `amount + fee` debits. -/
theorem get_wallet_balance_spec (address : String) (chain : List Block) :
    get_wallet_balance address chain =
      (chain.map (fun b =>
        (if b.ai_mining_data.developer_id = address then
          b.ai_mining_data.reward_amount else 0) +
        (b.transactions.map (fun t =>
          (if t.receiver = address then t.amount else 0) -
          (if t.sender = address then t.amount + t.fee else 0))).sum)).sum := by
  unfold get_wallet_balance
  rw [scan_blocks_eq, zero_add]

/-! ## Transfers (C7) -/

/-- C7: a transfer fails with no balances mutated whenever the sender's
chain-derivable balance is below `amount + fee`; otherwise (with an admitted
signature) it succeeds, debiting the sender by `amount + fee`, crediting the
receiver by `amount`, and leaving every other address untouched. -/
theorem process_transaction_spec (sig : Transaction → Bool)
    (chain : List Block) (balances : String → ℝ) (tx : Transaction) :
    (get_wallet_balance tx.sender chain < tx.amount + tx.fee →
      process_transaction sig chain balances tx = (false, balances)) ∧
    (sig tx = true →
      tx.amount + tx.fee ≤ get_wallet_balance tx.sender chain →
      (process_transaction sig chain balances tx).1 = true ∧
      (tx.sender ≠ tx.receiver →
        (process_transaction sig chain balances tx).2 tx.sender =
          balances tx.sender - (tx.amount + tx.fee) ∧
        (process_transaction sig chain balances tx).2 tx.receiver =
          balances tx.receiver + tx.amount) ∧
      (∀ a, a ≠ tx.sender → a ≠ tx.receiver →
        (process_transaction sig chain balances tx).2 a = balances a)) := by
  constructor
  · intro hlow
    unfold process_transaction
    by_cases hs : sig tx = false
    · rw [if_pos hs]
    · rw [if_neg hs, if_pos hlow]
  · intro hsig hfunds
    have hproc : process_transaction sig chain balances tx =
        (true,
          update_balance
            (update_balance balances tx.sender (-(tx.amount + tx.fee)))
            tx.receiver tx.amount) := by
      unfold process_transaction
      rw [if_neg (by rw [hsig]; simp),
        if_neg (not_lt.mpr hfunds)]
    refine ⟨by rw [hproc], ?_, ?_⟩
    · intro hne
      rw [hproc]
      unfold update_balance
      constructor
      · show (if tx.sender = tx.receiver then _ else _) = _
        rw [if_neg hne, if_pos rfl]
        ring
      · show (if tx.receiver = tx.receiver then _ else _) = _
        rw [if_pos rfl, if_neg (Ne.symm hne)]
    · intro a has har
      rw [hproc]
      unfold update_balance
      show (if a = tx.receiver then _ else _) = _
      rw [if_neg har, if_neg has]

/-- Witness for C7: with the genesis claimant's derived balance of 100, a
transfer of amount 30 and fee 1 succeeds. -/
theorem process_transaction_spec_witness :
    (process_transaction (fun _ => true) [fixGenesis] (fun _ => 0)
      { tx_id := "t", sender := "QENEX_FOUNDATION", receiver := "dev"
        amount := 30, fee := 1, timestamp := 0 }).1 = true :=
  ((process_transaction_spec (fun _ => true) [fixGenesis] (fun _ => 0)
      _).2 rfl
    (by
      have h : get_wallet_balance "QENEX_FOUNDATION" [fixGenesis] = 100 := by
        simp [get_wallet_balance, scan_blocks, scan_transactions, fixGenesis]
      rw [h]
      norm_num)).1

/-! ## Cached wallet balance versus chain-derived balance (C9) -/

/-- C9: the wallet's cached mutable balance field and the chain-derived
balance are not equivalent: a fresh wallet starts in agreement with the
chain, and the training-completion bonus of `finalize_training` credits only
the cached field, after which the two differ. -/
theorem cached_balance_diverges_from_chain :
    (create_wallet "A").balance =
      get_wallet_balance (create_wallet "A").address
        (qxc_init constHash 0).chain ∧
    (finalize_training (create_wallet "A")).balance ≠
      get_wallet_balance (finalize_training (create_wallet "A")).address
        (qxc_init constHash 0).chain := by
  have hgwb : get_wallet_balance "A" (qxc_init constHash 0).chain = 0 := by
    simp [get_wallet_balance, qxc_init, scan_blocks, scan_transactions,
      calculate_block_hash]
  constructor
  · show (0:ℝ) = get_wallet_balance "A" (qxc_init constHash 0).chain
    rw [hgwb]
  · show (0:ℝ) + 1/10 ≠ get_wallet_balance "A" (qxc_init constHash 0).chain
    rw [hgwb]
    norm_num

/-! ## Consecutive block indices (C10) -/

/-- C10: the genesis block has index 0; every successful mining operation
appends a block whose index is the pre-append height and increments the
height by one; hence in every reachable state the height equals the chain
length and the block at position `i` carries index `i`. -/
theorem block_indices_consecutive :
    (∀ (H : HashInput → String) (ts : ℕ)
        (h0 : 0 < (qxc_init H ts).chain.length),
      ((qxc_init H ts).chain.get ⟨0, h0⟩).index = 0) ∧
    (∀ (H : HashInput → String) (s : QxcState) (miner : String)
        (proof : AIVerification) (ts difficulty nonce : ℕ),
      (mine_block H s miner proof ts difficulty nonce).blockchain_height =
        s.blockchain_height + 1 ∧
      (mine_block H s miner proof ts difficulty nonce).tip.index =
        s.blockchain_height) ∧
    (∀ (H : HashInput → String) (s : QxcState), Reachable H s →
      s.blockchain_height = s.chain.length ∧
      ∀ (i : ℕ) (hi : i < s.chain.length),
        (s.chain.get ⟨i, hi⟩).index = i) := by
  refine ⟨fun H ts h0 => rfl, ?_, ?_⟩
  · intro H s miner proof ts difficulty nonce
    refine ⟨rfl, ?_⟩
    simp [mine_block, QxcState.tip, List.getLastD_concat, calculate_block_hash]
  · intro H s hs
    induction hs with
    | init ts =>
      refine ⟨rfl, ?_⟩
      intro i hi
      simp only [qxc_init, List.length_singleton] at hi
      match i, hi with
      | 0, _ => rfl
    | mine s miner proof ts difficulty nonce hr hv ih =>
      obtain ⟨hlen, hidx⟩ := ih
      have hlen2 : (mine_block H s miner proof ts difficulty nonce).chain.length =
          s.chain.length + 1 := by
        simp [mine_block]
      refine ⟨?_, ?_⟩
      · show s.blockchain_height + 1 = _
        rw [hlen2, hlen]
      · intro i hi
        rw [hlen2] at hi
        rcases Nat.lt_succ_iff_lt_or_eq.mp hi with hlt | heq
        · have hget : (mine_block H s miner proof ts difficulty nonce).chain.get
              ⟨i, by rw [hlen2]; omega⟩ = s.chain.get ⟨i, hlt⟩ :=
            List.get_append i hlt
          rw [hget]
          exact hidx i hlt
        · subst heq
          have hget : (mine_block H s miner proof ts difficulty nonce).chain.get
              ⟨s.chain.length, by rw [hlen2]; omega⟩ =
              calculate_block_hash H
                { index := s.blockchain_height, timestamp := ts
                  prev_hash := s.tip.hash, hash := "", nonce := nonce
                  difficulty := difficulty
                  ai_mining_data :=
                    { type := 0
                      improvement_metric := (proof.improvement_percentage : ℝ)
                      developer_id := miner, model_hash := proof.model_id
                      reward_amount := calculate_mining_reward 0
                        (proof.improvement_percentage : ℝ)
                        s.blockchain_height s.total_supply }
                  transactions := [] } :=
            List.get_of_append rfl rfl
          rw [hget]
          show s.blockchain_height = s.chain.length
          exact hlen

/-- Witness for C10 at the genesis state. -/
theorem block_indices_consecutive_witness :
    Reachable constHash (qxc_init constHash 0) ∧
    (qxc_init constHash 0).blockchain_height =
      (qxc_init constHash 0).chain.length :=
  ⟨.init 0, (block_indices_consecutive.2.2 constHash _ (.init 0)).1⟩

end Qxc
